import Mathlib

/-!
# Verification of the RAWGD geometry codec

Shallow embedding of `src/library/rawgd/utils.js` and
`src/library/rawgd/constants.js` (the encode/decode functions and the
numeric codec they use), together with proofs and refutations of the
specified properties.

Modelling conventions:
* JavaScript 32-bit float values are represented by their IEEE-754 bit
  patterns as `Nat` (`< 2^32`); the two half-float conversions operate on
  bit patterns exactly as the source does through its `Uint32Array` views.
* Byte buffers (`ArrayBuffer`/`DataView`) are `List Nat` of bytes.  The
  source reads with a monotonically increasing offset, which is modelled
  by readers that consume a prefix of the list and return the rest.
  A `DataView` read past the end of the buffer throws a `RangeError`; the
  readers return `none` there and `decode` surfaces it as `outOfBounds`,
  which is distinct from the `"Invalid file format"` error (`formatInvalid`).
* Float-valued attribute components (normals, uvs, colors) are modelled
  as exact rationals `ℚ`; `Math.round` / `Math.floor` become `⌊q + 1/2⌋`
  and `⌊q⌋`.
-/

namespace Rawgd

/-! ## Constants (`constants.js`) -/

def MAGIC : List Nat := [82, 65, 87, 71, 68] -- "RAWGD"

def VERSION_MAJOR : Nat := 1
def VERSION_MINOR : Nat := 0

def HAS_INDICES : Nat := 0x01
def HAS_NORMALS : Nat := 0x02
def HAS_UVS : Nat := 0x04
def HAS_RGBA5551 : Nat := 0x08
def HAS_RGB565 : Nat := 0x10

/-! ## Half-float conversion (`float32ToFloat16`, `float16ToFloa32`)

Both functions work on raw bit patterns (the source views its
`Float32Array` through a `Uint32Array`).  `float32ToFloat16` takes the
32-bit pattern of the input float; `float16ToFloa32` returns the 32-bit
pattern of its result. -/

/-- Bit pattern of the canonical quiet NaN produced by
`new Float32Array([NaN])[0]` (the JavaScript canonical NaN
`0x7FF8_0000_0000_0000` narrowed to single precision). -/
def NAN_BITS32 : Nat := 0x7FC00000

/-- Bit pattern of single-precision `+Infinity`. -/
def INF_BITS32 : Nat := 0x7F800000

/-- `float32ToFloat16` from `utils.js`, on the `Uint32Array` view `bits`
of the input float.  Returns the `Uint16` half-float pattern. -/
def float32ToFloat16 (bits : Nat) : Nat :=
  -- Decompose Float32 into sign, exponent and mantissa components
  let signBit := (bits &&& 0x80000000) >>> 16      -- shift sign to Float16 position
  let rawExponent := (bits &&& 0x7F800000) >>> 23  -- extract exponent bits
  let mantissaBits := (bits &&& 0x007FFFFF) >>> 13 -- keep 10 significant bits
  -- Convert Float32 exponent (bias 127) to Float16 (bias 15)
  let exponentValue : Int := (rawExponent : Int) - 127 + 15
  if exponentValue > 31 then
    -- Overflow: return infinity with original sign
    signBit ||| 0x7C00
  else if exponentValue < -14 then
    -- Underflow: return zero with original sign (flush to zero)
    signBit
  else if exponentValue < 1 then
    -- Subnormal: adjust mantissa with implicit leading 1 and denormalize.
    -- NOTE: `mantissaBits` is already shifted down by 13 here, exactly as
    -- in the source, so the `>>> 13` below discards those mantissa bits.
    let denormalizedMantissa := (mantissaBits ||| 0x00800000) >>> (1 - exponentValue).toNat
    signBit ||| (denormalizedMantissa >>> 13)
  else
    -- Normal number: combine components
    signBit ||| (exponentValue.toNat <<< 10) ||| mantissaBits

/-- `float16ToFloa32` from `utils.js` (the misspelling is the source's),
on the `Uint16` half pattern `float16Bits`.  Returns the bit pattern of
the resulting 32-bit float. -/
def float16ToFloa32 (float16Bits : Nat) : Nat :=
  let signBit := (float16Bits &&& 0x8000) <<< 16   -- move sign to Float32 position
  let rawExponent := (float16Bits &&& 0x7C00) >>> 10
  let mantissaBits := (float16Bits &&& 0x03FF) <<< 13
  if rawExponent = 0x1F then
    -- `float16Bits ? NaN : Infinity` — the condition is the whole 16-bit
    -- value, exactly as in the source (not the mantissa bits).
    if float16Bits = 0 then INF_BITS32 else NAN_BITS32
  else
    -- Convert Float16 exponent (bias 15) to Float32 (bias 127)
    let exponentValue : Int := if rawExponent = 0 then 0 else (rawExponent : Int) - 15 + 127
    signBit ||| (exponentValue.toNat <<< 23) ||| mantissaBits

/-! ## Octahedral normal encoding (`encodeUnitVector`)

Normal components are modelled as exact rationals.  `Math.round` rounds
half toward positive infinity in JavaScript, which is `⌊q + 1/2⌋`.
`decodeUnitVector` ends in an L2 normalization (`Math.sqrt`), an
irrational real operation; decoded normal values are therefore kept as
the raw octahedral byte pairs in `DecodedGeometry` (no claim refers to
decoded normal values). -/

/-- JavaScript `Math.round`: round half toward positive infinity. -/
def jsRound (q : ℚ) : Int := ⌊q + 1 / 2⌋

/-- The sign rule `v >= 0 ? 1 : -1` used when folding the octahedron. -/
def jsSign (v : ℚ) : ℚ := if 0 ≤ v then 1 else -1

/-- `encodeUnitVector` from `utils.js`: project onto the octahedron,
fold the negative-z hemisphere, map to [0,1] and quantize.  Returns the
two `Math.round` results (the `setUint8` wrap to a byte happens at
serialization time). -/
def encodeUnitVector (x y z : ℚ) : Int × Int :=
  let invL1Norm : ℚ := 1 / (|x| + |y| + |z|)
  let nx := x * invL1Norm
  let ny := y * invL1Norm
  let nx1 := if z < 0 then (1 - |ny|) * jsSign nx else nx
  let ny1 := if z < 0 then (1 - |nx|) * jsSign ny else ny
  (jsRound ((nx1 * (1 / 2) + 1 / 2) * 255), jsRound ((ny1 * (1 / 2) + 1 / 2) * 255))

/-! ## Color packers

Channel inputs are documented as floats in [0,1]; on that domain the
source's `<< `/`|` packing of the rounded nonnegative fields coincides
with `Nat` shift/or below (`Int.toNat` only clamps a negative rounded
channel, which cannot arise from a channel ≥ 0). -/

/-- `floatToRGB565` from `utils.js`. -/
def floatToRGB565 (r g b : ℚ) : Nat :=
  let r5 := (jsRound (r * 31)).toNat
  let g6 := (jsRound (g * 63)).toNat
  let b5 := (jsRound (b * 31)).toNat
  (r5 <<< 11) ||| (g6 <<< 5) ||| b5

/-- `rgb565ToFloat` from `utils.js`. -/
def rgb565ToFloat (rgb565 : Nat) : ℚ × ℚ × ℚ :=
  ((((rgb565 >>> 11) &&& 0x1F : Nat) : ℚ) / 31,
   (((rgb565 >>> 5) &&& 0x3F : Nat) : ℚ) / 63,
   ((rgb565 &&& 0x1F : Nat) : ℚ) / 31)

/-- `floatToRGBA5551` from `utils.js` (alpha thresholds at `> 0.5`). -/
def floatToRGBA5551 (r g b a : ℚ) : Nat :=
  let r5 := (jsRound (r * 31)).toNat
  let g5 := (jsRound (g * 31)).toNat
  let b5 := (jsRound (b * 31)).toNat
  let a1 : Nat := if 1 / 2 < a then 1 else 0
  (r5 <<< 11) ||| (g5 <<< 6) ||| (b5 <<< 1) ||| a1

/-- `rgba5551ToFloat` from `utils.js`. -/
def rgba5551ToFloat (rgba5551 : Nat) : ℚ × ℚ × ℚ × ℚ :=
  ((((rgba5551 >>> 11) &&& 0x1F : Nat) : ℚ) / 31,
   (((rgba5551 >>> 6) &&& 0x1F : Nat) : ℚ) / 31,
   (((rgba5551 >>> 1) &&& 0x1F : Nat) : ℚ) / 31,
   if rgba5551 &&& 0x1 ≠ 0 then 1 else 0)

/-! ## Version byte codec -/

/-- `encodeVersion` from `utils.js`: `(VERSION_MAJOR << 4) | VERSION_MINOR`. -/
def encodeVersion : Nat := (VERSION_MAJOR <<< 4) ||| VERSION_MINOR

/-- `decodeVersion` from `utils.js`: high nibble major, low nibble minor. -/
def decodeVersion (byte : Nat) : Nat × Nat :=
  ((byte >>> 4) &&& 0x0F, byte &&& 0x0F)

/-! ## Byte-level helpers

`toU16LE v` is the pair of bytes `DataView.setUint16(·, v, true)`
stores: the value is reduced mod 2^16 and written little-endian.
`DataView.setInt16` reduces a (possibly negative) integer mod 2^16 the
same way. -/

/-- Little-endian bytes written by `setUint16` (value taken mod 2^16). -/
def toU16LE (v : Nat) : List Nat := [v % 256, v / 256 % 256]

/-- Little-endian bytes written by `setInt16` (two's complement mod 2^16). -/
def int16ToBytesLE (q : Int) : List Nat := toU16LE (q % 65536).toNat

/-- The signed value `DataView.getInt16` reconstructs from an unsigned
16-bit value. -/
def int16OfUint16 (v : Nat) : Int :=
  if 32768 ≤ v then (v : Int) - 65536 else (v : Int)

/-- `DataView.getUint8` at the current offset; `none` models the
`RangeError` thrown on a read past the end of the buffer. -/
def readUint8 : List Nat → Option (Nat × List Nat)
  | [] => none
  | b :: rest => some (b, rest)

/-- `DataView.getUint16(·, true)` at the current offset. -/
def readUint16LE : List Nat → Option (Nat × List Nat)
  | b0 :: b1 :: rest => some (b0 + b1 * 256, rest)
  | _ => none

/-- `DataView.getInt16(·, true)` at the current offset. -/
def readInt16LE (l : List Nat) : Option (Int × List Nat) :=
  match readUint16LE l with
  | some (v, rest) => some (int16OfUint16 v, rest)
  | none => none

/-- Read `n` consecutive bytes (the decoder's magic-reading loop). -/
def readBytes : Nat → List Nat → Option (List Nat × List Nat)
  | 0, l => some ([], l)
  | n + 1, l =>
    match l with
    | [] => none
    | b :: rest =>
      match readBytes n rest with
      | some (bs, rest') => some (b :: bs, rest')
      | none => none

/-- Read `n` consecutive unsigned 16-bit little-endian values. -/
def readUint16List : Nat → List Nat → Option (List Nat × List Nat)
  | 0, l => some ([], l)
  | n + 1, l =>
    match readUint16LE l with
    | some (v, rest) =>
      match readUint16List n rest with
      | some (vs, rest') => some (v :: vs, rest')
      | none => none
    | none => none

/-- Read `n` consecutive byte pairs (the decoder's normals loop does two
`getUint8` reads per vertex). -/
def readPairs : Nat → List Nat → Option (List (Nat × Nat) × List Nat)
  | 0, l => some ([], l)
  | n + 1, l =>
    match l with
    | b0 :: b1 :: rest =>
      match readPairs n rest with
      | some (ps, rest') => some ((b0, b1) :: ps, rest')
      | none => none
    | _ => none

/-- Read `n` consecutive signed 16-bit little-endian values. -/
def readInt16List : Nat → List Nat → Option (List Int × List Nat)
  | 0, l => some ([], l)
  | n + 1, l =>
    match readInt16LE l with
    | some (q, rest) =>
      match readInt16List n rest with
      | some (qs, rest') => some (q :: qs, rest')
      | none => none
    | none => none

/-! ## Encoder (`encode`)

The encoder input: `vertices` holds Float32 bit patterns, the optional
attributes are as in the source (flattened component lists).  JavaScript
objects (including empty typed arrays) are truthy, so an attribute is
"present" exactly when the field is supplied: `Option.isSome`.

The source computes a byte size, allocates the buffer, and fills it with
sequential writes that cover exactly the computed size (under the
documented length preconditions); the model serializes the same writes
by list concatenation. -/

structure Geometry where
  vertices : List Nat
  indices : Option (List Nat)
  normals : Option (List ℚ)
  uvs : Option (List ℚ)
  colors : Option (List ℚ)

/-- `vertexCount = vertices.length / 3` (the count written to the header). -/
def vertexCount (g : Geometry) : Nat := g.vertices.length / 3

/-- The flags byte computed at the top of `encode`.  The color format is
chosen by `colors.length === vertices.length / 3 * 4`, a real-number
comparison in JavaScript, modelled exactly with rationals. -/
def encodeFlags (g : Geometry) : Nat :=
  let f1 := if g.indices.isSome then 0 ||| HAS_INDICES else 0
  let f2 := if g.normals.isSome then f1 ||| HAS_NORMALS else f1
  let f3 := if g.uvs.isSome then f2 ||| HAS_UVS else f2
  match g.colors with
  | none => f3
  | some cs =>
    if (cs.length : ℚ) = (g.vertices.length : ℚ) / 3 * 4 then f3 ||| HAS_RGBA5551
    else f3 ||| HAS_RGB565

/-- Vertex section: each Float32 component as a half-float `setUint16`. -/
def float16Bytes (vertices : List Nat) : List Nat :=
  (vertices.map (fun v => toU16LE (float32ToFloat16 v))).flatten

/-- Index section: `setUint16` count then `setUint16` per index. -/
def indicesBytes (indices : List Nat) : List Nat :=
  toU16LE indices.length ++ (indices.map toU16LE).flatten

/-- Normal section: the source iterates triples (`i += 3`) and writes the
two octahedral bytes with `setUint8` (wrap mod 256).  A trailing partial
triple (impossible under the documented preconditions) is not read. -/
def normalsBytes : List ℚ → List Nat
  | x :: y :: z :: rest =>
    ((encodeUnitVector x y z).1 % 256).toNat ::
      ((encodeUnitVector x y z).2 % 256).toNat :: normalsBytes rest
  | _ => []

/-- UV quantization: `Math.floor(value * 32767)`. -/
def uvQuantize (u : ℚ) : Int := ⌊u * 32767⌋

/-- One UV component as stored: `setInt16(offset, floor(u * 32767), true)`. -/
def uvEncodeComponent (u : ℚ) : List Nat := int16ToBytesLE (uvQuantize u)

/-- UV section: every component quantized and written as int16. -/
def uvBytes (uvs : List ℚ) : List Nat := (uvs.map uvEncodeComponent).flatten

/-- RGBA5551 color section: the source iterates quadruples (`i += 4`). -/
def rgbaBytes : List ℚ → List Nat
  | r :: g :: b :: a :: rest => toU16LE (floatToRGBA5551 r g b a) ++ rgbaBytes rest
  | _ => []

/-- RGB565 color section: the source iterates triples (`i += 3`). -/
def rgbBytes : List ℚ → List Nat
  | r :: g :: b :: rest => toU16LE (floatToRGB565 r g b) ++ rgbBytes rest
  | _ => []

/-- `encode` from `utils.js`: magic, version byte, flags byte, vertex
count, then the attribute sections in source order.  The source guards
each optional section on the corresponding flag bit, which `encodeFlags`
sets exactly when the attribute is present; in the color section the
RGBA5551 branch is tested first. -/
def encode (g : Geometry) : List Nat :=
  let flags := encodeFlags g
  MAGIC ++ [encodeVersion] ++ [flags] ++ toU16LE (g.vertices.length / 3)
    ++ float16Bytes g.vertices
    ++ (match g.indices with
        | some idxs => indicesBytes idxs
        | none => [])
    ++ (match g.normals with
        | some ns => normalsBytes ns
        | none => [])
    ++ (match g.uvs with
        | some us => uvBytes us
        | none => [])
    ++ (match g.colors with
        | some cs => if flags &&& HAS_RGBA5551 ≠ 0 then rgbaBytes cs else rgbBytes cs
        | none => [])

/-! ## Decoder (`decode`) -/

inductive DecodeError where
  /-- The `"Invalid file format"` error thrown on a magic mismatch. -/
  | formatInvalid
  /-- The `RangeError` a `DataView` read past the buffer end throws. -/
  | outOfBounds
deriving DecidableEq

structure DecodedGeometry where
  version : Nat × Nat
  vertices : List Nat
  indices : Option (List Nat)
  normals : Option (List (Nat × Nat))
  uvs : Option (List ℚ)
  colorsRGB : Option (List (ℚ × ℚ × ℚ))
  colorsRGBA : Option (List (ℚ × ℚ × ℚ × ℚ))
deriving DecidableEq

/-- The `HAS_INDICES` block of `decode`: index count then indices. -/
def parseIndices (flags : Nat) (l : List Nat) :
    Option (Option (List Nat) × List Nat) :=
  if flags &&& HAS_INDICES ≠ 0 then
    match readUint16LE l with
    | some (indexCount, r) =>
      match readUint16List indexCount r with
      | some (idxs, r') => some (some idxs, r')
      | none => none
    | none => none
  else some (none, l)

/-- The `HAS_NORMALS` block of `decode`: `vertexCount` octahedral byte
pairs.  The pairs are kept raw; the source maps each through
`decodeUnitVector`, whose final `Math.sqrt` L2 normalization is a real
operation no claim refers to. -/
def parseNormals (flags vc : Nat) (l : List Nat) :
    Option (Option (List (Nat × Nat)) × List Nat) :=
  if flags &&& HAS_NORMALS ≠ 0 then
    match readPairs vc l with
    | some (ps, r) => some (some ps, r)
    | none => none
  else some (none, l)

/-- The `HAS_UVS` block of `decode`: `vertexCount * 2` int16 values, each
divided by 32767. -/
def parseUVs (flags vc : Nat) (l : List Nat) :
    Option (Option (List ℚ) × List Nat) :=
  if flags &&& HAS_UVS ≠ 0 then
    match readInt16List (vc * 2) l with
    | some (qs, r) => some (some (qs.map (fun (q : Int) => (q : ℚ) / 32767)), r)
    | none => none
  else some (none, l)

/-- The color block of `decode`: `HAS_RGBA5551` is tested first, `else if
HAS_RGB565` second; with neither bit set both outputs stay null. -/
def parseColors (flags vc : Nat) (l : List Nat) :
    Option ((Option (List (ℚ × ℚ × ℚ)) × Option (List (ℚ × ℚ × ℚ × ℚ))) × List Nat) :=
  if flags &&& HAS_RGBA5551 ≠ 0 then
    match readUint16List vc l with
    | some (vs, r) => some ((none, some (vs.map rgba5551ToFloat)), r)
    | none => none
  else if flags &&& HAS_RGB565 ≠ 0 then
    match readUint16List vc l with
    | some (vs, r) => some ((some (vs.map rgb565ToFloat), none), r)
    | none => none
  else some ((none, none), l)

/-- `decode` from `utils.js`: verify the 5 magic bytes (mismatch throws
`"Invalid file format"`), then read version, flags, vertex count,
`vertexCount * 3` half-floats, and the flagged optional sections in
order.  Reads past the buffer end surface as `outOfBounds`. -/
def decode (buffer : List Nat) : Except DecodeError DecodedGeometry :=
  match readBytes MAGIC.length buffer with
  | none => .error .outOfBounds
  | some (magic, r1) =>
    if magic ≠ MAGIC then .error .formatInvalid
    else
      match readUint8 r1 with
      | none => .error .outOfBounds
      | some (versionByte, r2) =>
        match readUint8 r2 with
        | none => .error .outOfBounds
        | some (flags, r3) =>
          match readUint16LE r3 with
          | none => .error .outOfBounds
          | some (vc, r4) =>
            match readUint16List (vc * 3) r4 with
            | none => .error .outOfBounds
            | some (halves, r5) =>
              match parseIndices flags r5 with
              | none => .error .outOfBounds
              | some (indices, r6) =>
                match parseNormals flags vc r6 with
                | none => .error .outOfBounds
                | some (normals, r7) =>
                  match parseUVs flags vc r7 with
                  | none => .error .outOfBounds
                  | some (uvs, r8) =>
                    match parseColors flags vc r8 with
                    | none => .error .outOfBounds
                    | some ((colorsRGB, colorsRGBA), _) =>
                      .ok { version := decodeVersion versionByte,
                            vertices := halves.map float16ToFloa32,
                            indices := indices, normals := normals, uvs := uvs,
                            colorsRGB := colorsRGB, colorsRGBA := colorsRGBA }

/-! ## Documented encoder preconditions and the expected round-trip -/

/-- The documented length preconditions on the encoder input: vertex
components come in triples with a 16-bit vertex count; indices are 16-bit
values with a 16-bit count; normals/uvs/colors lengths match the vertex
count (colors either RGBA or RGB stride). -/
def WellFormed (g : Geometry) : Prop :=
  g.vertices.length = 3 * vertexCount g ∧
  vertexCount g < 65536 ∧
  (∀ idxs ∈ g.indices, idxs.length < 65536 ∧ ∀ i ∈ idxs, i < 65536) ∧
  (∀ ns ∈ g.normals, ns.length = 3 * vertexCount g) ∧
  (∀ us ∈ g.uvs, us.length = 2 * vertexCount g) ∧
  (∀ cs ∈ g.colors, cs.length = 4 * vertexCount g ∨ cs.length = 3 * vertexCount g)

/-- What one UV component becomes after the encode/decode pipeline:
quantized with `floor(u * 32767)`, stored as int16, read back, divided
by 32767. -/
def uvRoundTrip (u : ℚ) : ℚ :=
  ((int16OfUint16 ((uvQuantize u) % 65536).toNat : Int) : ℚ) / 32767

/-- The octahedral byte pairs the decoder recovers for an encoded
normals list (triple-wise encoding, bytes wrapped mod 256). -/
def octPairs : List ℚ → List (Nat × Nat)
  | x :: y :: z :: rest =>
    (((encodeUnitVector x y z).1 % 256).toNat,
     ((encodeUnitVector x y z).2 % 256).toNat) :: octPairs rest
  | _ => []

/-- The unsigned 16-bit values stored in the RGBA5551 color section
(`setUint16` wraps mod 2^16). -/
def rgbaStored : List ℚ → List Nat
  | r :: g :: b :: a :: rest => floatToRGBA5551 r g b a % 65536 :: rgbaStored rest
  | _ => []

/-- The unsigned 16-bit values stored in the RGB565 color section. -/
def rgbStored : List ℚ → List Nat
  | r :: g :: b :: rest => floatToRGB565 r g b % 65536 :: rgbStored rest
  | _ => []

/-- Decoded RGBA colors after a round trip. -/
def rgbaRoundTrip (cs : List ℚ) : List (ℚ × ℚ × ℚ × ℚ) :=
  (rgbaStored cs).map rgba5551ToFloat

/-- Decoded RGB colors after a round trip. -/
def rgbRoundTrip (cs : List ℚ) : List (ℚ × ℚ × ℚ) :=
  (rgbStored cs).map rgb565ToFloat

/-- The geometry record `decode` recovers from `encode g` for a
well-formed `g`. -/
def roundTripGeometry (g : Geometry) : DecodedGeometry where
  version := (VERSION_MAJOR, VERSION_MINOR)
  vertices := g.vertices.map (fun v => float16ToFloa32 (float32ToFloat16 v))
  indices := g.indices
  normals := g.normals.map octPairs
  uvs := g.uvs.map (List.map uvRoundTrip)
  colorsRGB :=
    match g.colors with
    | some cs =>
      if (cs.length : ℚ) = (g.vertices.length : ℚ) / 3 * 4 then none
      else some (rgbRoundTrip cs)
    | none => none
  colorsRGBA :=
    match g.colors with
    | some cs =>
      if (cs.length : ℚ) = (g.vertices.length : ℚ) / 3 * 4 then some (rgbaRoundTrip cs)
      else none
    | none => none

/-! ## Spec-side definition for the subnormal branch (claim C3) -/

/-- Modelled from the spec: the subnormal branch of `float32ToFloat16`
as the spec words it — "produce a subnormal by shifting the mantissa
(with its implicit leading 1) right by `1 - exponent`, keeping the top
10 bits": the full 23-bit mantissa with the implicit leading 1 at bit
23 is shifted right by `1 - exponent` and the top 10 bits (bits 13-22
of the 24-bit significand register) are kept. -/
def subnormalHalfSpec (bits : Nat) : Nat :=
  let signBit := (bits &&& 0x80000000) >>> 16
  let rawExponent := (bits &&& 0x7F800000) >>> 23
  let exponentValue : Int := (rawExponent : Int) - 127 + 15
  let significand := (bits &&& 0x007FFFFF) ||| 0x00800000
  signBit ||| ((significand >>> (1 - exponentValue).toNat) >>> 13)

/-! # Theorems

First the bit-arithmetic toolkit: contiguous bit masks, shifts and
disjoint ors as `Nat` division/modulo arithmetic, so that `omega` can
reason about the float conversions. -/

/-- A contiguous mask `(2^b - 1) * 2^a` extracts `h / 2^a % 2^b`. -/
lemma and_mask_mul (h a b : Nat) :
    h &&& ((2 ^ b - 1) * 2 ^ a) = h / 2 ^ a % 2 ^ b * 2 ^ a := by
  rw [← Nat.shiftLeft_eq, ← Nat.shiftLeft_eq, ← Nat.shiftRight_eq_div_pow]
  apply Nat.eq_of_testBit_eq
  intro i
  by_cases hai : a ≤ i
  · simp only [Nat.testBit_and, Nat.testBit_shiftLeft, Nat.testBit_mod_two_pow,
      Nat.testBit_shiftRight, Nat.testBit_two_pow_sub_one, hai, decide_true_eq_true,
      Bool.true_and, Nat.add_sub_cancel' hai]
    cases h.testBit i <;> cases (decide (i - a < b)) <;> simp
  · simp only [Nat.testBit_and, Nat.testBit_shiftLeft, hai, decide_false_eq_false,
      Bool.false_and, Bool.and_false]

/-- The half-float exponent field `(h & 0x7C00) >>> 10` arithmetically. -/
lemma maskExp16 (h : Nat) : (h &&& 31744) >>> 10 = h / 1024 % 32 := by
  have hm := and_mask_mul h 10 5
  norm_num at hm
  rw [hm, Nat.shiftRight_eq_div_pow]
  norm_num

/-- The half-float sign move `(h & 0x8000) << 16` arithmetically. -/
lemma maskSign16 (h : Nat) : (h &&& 32768) <<< 16 = h / 32768 % 2 * 2147483648 := by
  have hm := and_mask_mul h 15 1
  norm_num at hm
  rw [hm, Nat.shiftLeft_eq]
  ring_nf

/-- The half-float mantissa move `(h & 0x3FF) << 13` arithmetically. -/
lemma maskMant16 (h : Nat) : (h &&& 1023) <<< 13 = h % 1024 * 8192 := by
  have hm := and_mask_mul h 0 10
  norm_num at hm
  rw [hm, Nat.shiftLeft_eq]

/-- The single-float sign move `(b & 0x80000000) >>> 16` arithmetically. -/
lemma maskSign32 (h : Nat) : (h &&& 2147483648) >>> 16 = h / 2147483648 % 2 * 32768 := by
  have hm := and_mask_mul h 31 1
  norm_num at hm
  rw [hm, Nat.shiftRight_eq_div_pow]
  norm_num
  omega

/-- The single-float exponent field `(b & 0x7F800000) >>> 23` arithmetically. -/
lemma maskExp32 (h : Nat) : (h &&& 2139095040) >>> 23 = h / 8388608 % 256 := by
  have hm := and_mask_mul h 23 8
  norm_num at hm
  rw [hm, Nat.shiftRight_eq_div_pow]
  norm_num

/-- The single-float mantissa truncation `(b & 0x7FFFFF) >>> 13` arithmetically. -/
lemma maskMant32 (h : Nat) : (h &&& 8388607) >>> 13 = h % 8388608 / 8192 := by
  have hm := and_mask_mul h 0 23
  norm_num at hm
  rw [hm, Nat.shiftRight_eq_div_pow]

/-- Or of a shifted value with a value below the shift is addition. -/
lemma lor_mul_add (k u y : Nat) (hy : y < 2 ^ k) : (u * 2 ^ k) ||| y = u * 2 ^ k + y := by
  rw [mul_comm]
  exact (Nat.mul_add_lt_is_or hy u).symm

/-- `float16ToFloa32` on a normal half pattern (exponent field 1..30),
as plain arithmetic on the three fields. -/
lemma float16ToFloa32_normal (h : Nat) (hlt : h < 65536)
    (he1 : 1 ≤ h / 1024 % 32) (he2 : h / 1024 % 32 ≤ 30) :
    float16ToFloa32 h =
      h / 32768 * 2147483648 + (h / 1024 % 32 + 112) * 8388608 + h % 1024 * 8192 := by
  simp only [float16ToFloa32, maskExp16, maskSign16, maskMant16]
  rw [if_neg (by omega), if_neg (by omega)]
  have htn : (((h / 1024 % 32 : Nat) : Int) - 15 + 127).toNat = h / 1024 % 32 + 112 := by omega
  rw [htn]
  have hsh : (h / 1024 % 32 + 112) <<< 23 = (h / 1024 % 32 + 112) * 8388608 := by
    rw [Nat.shiftLeft_eq]
  rw [hsh]
  have h2 : h / 32768 % 2 = h / 32768 := by omega
  rw [h2]
  have step1 : h / 32768 * 2147483648 ||| (h / 1024 % 32 + 112) * 8388608 =
      h / 32768 * 2147483648 + (h / 1024 % 32 + 112) * 8388608 := by
    have hxy := lor_mul_add 31 (h / 32768) ((h / 1024 % 32 + 112) * 8388608) (by omega)
    norm_num at hxy
    exact hxy
  rw [step1]
  have hrw : h / 32768 * 2147483648 + (h / 1024 % 32 + 112) * 8388608 =
      (h / 32768 * 256 + (h / 1024 % 32 + 112)) * 2 ^ 23 := by
    have h23 : (2 : Nat) ^ 23 = 8388608 := by norm_num
    rw [h23]; ring
  rw [hrw]
  rw [lor_mul_add 23 (h / 32768 * 256 + (h / 1024 % 32 + 112)) (h % 1024 * 8192) (by omega)]

/-- `float32ToFloat16` on a 32-bit pattern with exponent field 113..142
(the image of the normal halves), as plain arithmetic. -/
lemma float32ToFloat16_normalBits (b s e m : Nat)
    (hb : b = s * 2147483648 + e * 8388608 + m * 8192)
    (hs : s < 2) (he1 : 113 ≤ e) (he2 : e ≤ 142) (hm : m < 1024) :
    float32ToFloat16 b = s * 32768 + (e - 112) * 1024 + m := by
  simp only [float32ToFloat16, maskSign32, maskExp32, maskMant32]
  have h1 : b / 2147483648 % 2 = s := by omega
  have h2 : b / 8388608 % 256 = e := by omega
  have h3 : b % 8388608 / 8192 = m := by omega
  rw [h1, h2, h3]
  rw [if_neg (by omega), if_neg (by omega), if_neg (by omega)]
  have htn : (((e : Nat) : Int) - 127 + 15).toNat = e - 112 := by omega
  rw [htn]
  have hsh : (e - 112) <<< 10 = (e - 112) * 1024 := by rw [Nat.shiftLeft_eq]
  rw [hsh]
  have step1 : s * 32768 ||| (e - 112) * 1024 = s * 32768 + (e - 112) * 1024 := by
    have hxy := lor_mul_add 15 s ((e - 112) * 1024) (by omega)
    norm_num at hxy
    exact hxy
  rw [step1]
  have hrw : s * 32768 + (e - 112) * 1024 = (s * 32 + (e - 112)) * 2 ^ 10 := by
    have h10 : (2 : Nat) ^ 10 = 1024 := by norm_num
    rw [h10]; ring
  rw [hrw]
  rw [lor_mul_add 10 (s * 32 + (e - 112)) m (by omega)]

/-- Bound for the subnormal branch result of `float32ToFloat16`. -/
lemma sub_branch_bound (s m x : Nat) (hs : s < 2) (hm : m < 1024) :
    (s * 32768) ||| (((m ||| 8388608) >>> x) >>> 13) < 65536 := by
  have hden : (m ||| 8388608) < 2 ^ 24 := Nat.or_lt_two_pow (by omega) (by norm_num)
  have h2 : ((m ||| 8388608) >>> x) ≤ (m ||| 8388608) := by
    rw [Nat.shiftRight_eq_div_pow]; exact Nat.div_le_self _ _
  have h3 : ((m ||| 8388608) >>> x) >>> 13 < 2 ^ 16 := by
    rw [Nat.shiftRight_eq_div_pow]
    norm_num at hden ⊢
    omega
  have hs16 : s * 32768 < 2 ^ 16 := by omega
  have h4 := Nat.or_lt_two_pow hs16 h3
  norm_num at h4
  exact h4

/-- Bound for the normal branch result of `float32ToFloat16`. -/
lemma normal_branch_bound (s e m : Nat) (hs : s < 2) (he : e ≤ 31) (hm : m < 1024) :
    (s * 32768) ||| (e <<< 10) ||| m < 65536 := by
  have h1 : e <<< 10 < 2 ^ 16 := by
    rw [Nat.shiftLeft_eq]
    norm_num
    omega
  have hs16 : s * 32768 < 2 ^ 16 := by omega
  have h2 := Nat.or_lt_two_pow hs16 h1
  have hm16 : m < 2 ^ 16 := by omega
  have h3 := Nat.or_lt_two_pow h2 hm16
  norm_num at h3
  exact h3

/-- `float32ToFloat16` always fits in 16 bits, so the `setUint16` write
in the vertex section stores it unchanged. -/
lemma float32ToFloat16_lt (bits : Nat) : float32ToFloat16 bits < 65536 := by
  simp only [float32ToFloat16, maskSign32, maskExp32, maskMant32]
  split_ifs with h1 h2 h3
  · have hs : bits / 2147483648 % 2 * 32768 < 2 ^ 16 := by omega
    have h31744 : (31744 : Nat) < 2 ^ 16 := by norm_num
    have h4 := Nat.or_lt_two_pow hs h31744
    norm_num at h4
    exact h4
  · omega
  · exact sub_branch_bound _ _ _ (by omega) (by omega)
  · exact normal_branch_bound _ _ _ (by omega) (by omega) (by omega)

/-! ## Claim C1 — half-float round trip -/

/-- C1 (amended): the round trip `f32→f16 ∘ f16→f32` is bit-exact for
±0, for every normal half pattern (exponent field 1..30), and for the
positive-infinity pattern `0x7C00`; and `f16→f32(15923)` is the bit
pattern `0x3FC66000` of `1.5498046875`, which re-encodes to `15923`.
(The claim's full set — all subnormal patterns and `0xFC00` — does not
round-trip; see the counterexample.) -/
theorem half_roundtrip_representable :
    (∀ h : Nat, h < 65536 →
        (1 ≤ (h &&& 0x7C00) >>> 10 ∧ (h &&& 0x7C00) >>> 10 ≤ 30) ∨
          h = 0x0000 ∨ h = 0x8000 ∨ h = 0x7C00 →
        float32ToFloat16 (float16ToFloa32 h) = h) ∧
    float16ToFloa32 15923 = 0x3FC66000 ∧ float32ToFloat16 0x3FC66000 = 15923 := by
  refine ⟨?_, by decide, by decide⟩
  intro h hlt hcase
  rcases hcase with ⟨he1, he2⟩ | rfl | rfl | rfl
  · rw [maskExp16] at he1 he2
    rw [float16ToFloa32_normal h hlt he1 he2]
    rw [float32ToFloat16_normalBits _ (h / 32768) (h / 1024 % 32 + 112) (h % 1024) rfl
      (by omega) (by omega) (by omega) (by omega)]
    omega
  · decide
  · decide
  · decide

/-- Witness for C1 at the claim's own example `h = 15923`. -/
theorem half_roundtrip_witness :
    (15923 < 65536 ∧ 1 ≤ ((15923 : Nat) &&& 0x7C00) >>> 10 ∧
        ((15923 : Nat) &&& 0x7C00) >>> 10 ≤ 30) ∧
      float32ToFloat16 (float16ToFloa32 15923) = 15923 :=
  ⟨⟨by decide, by decide, by decide⟩,
    half_roundtrip_representable.1 15923 (by decide) (Or.inl ⟨by decide, by decide⟩)⟩

/-- Counterexample to C1 as stated: `h = 1` is a representable
subnormal half pattern (exponent field 0), but its round trip returns
`0`, not `1`. -/
theorem half_roundtrip_subnormal_cex :
    ((1 : Nat) &&& 0x7C00) >>> 10 = 0 ∧ float32ToFloat16 (float16ToFloa32 1) = 0 := by decide

/-! ## Claim C2 — exponent field 0x1F decodes to infinity or NaN -/

/-- C2 (code bug): for every input whose 5-bit exponent field is `0x1F`,
`float16ToFloa32` returns the NaN pattern — including `0x7C00` and
`0xFC00`, which the claim (and the evident intent of the source's
`float16Bits ? NaN : Infinity`) says should give infinity: the
condition reads the whole 16-bit value, which is nonzero whenever the
exponent field is `0x1F`, instead of the mantissa bits. -/
theorem exp31_always_nan :
    ∀ h : Nat, (h &&& 0x7C00) >>> 10 = 0x1F →
      float16ToFloa32 h = NAN_BITS32 ∧ NAN_BITS32 ≠ INF_BITS32 := by
  intro h hexp
  refine ⟨?_, by decide⟩
  have h0 : h ≠ 0 := by
    rw [maskExp16] at hexp
    omega
  simp only [float16ToFloa32]
  rw [if_pos hexp, if_neg h0]

/-- Witness for C2 at the failing input `0x7C00` (+∞'s pattern). -/
theorem exp31_always_nan_witness :
    ((31744 : Nat) &&& 0x7C00) >>> 10 = 0x1F ∧
      (float16ToFloa32 31744 = NAN_BITS32 ∧ NAN_BITS32 ≠ INF_BITS32) :=
  ⟨by decide, exp31_always_nan 31744 (by decide)⟩

/-! ## Claim C3 — subnormal encoding keeps the leading mantissa bits -/

/-- C3 (code bug): at input `0x38400000` (the float `1.5 * 2^-15`, whose
rebiased half exponent is `0`, inside the claim's `[-13, 0]` range) the
source returns `0x0200` — only the implicit-1 contribution — while the
spec's formula (`subnormalHalfSpec`, the significand with its leading
mantissa bits kept) gives `0x0300`: the source shifts the already
13-bit-truncated mantissa and then shifts by 13 again, losing the
mantissa bits. -/
theorem subnormal_encode_divergence :
    (((0x38400000 : Nat) &&& 0x7F800000) >>> 23 : Int) - 127 + 15 = 0 ∧
      float32ToFloat16 0x38400000 = 0x0200 ∧
      subnormalHalfSpec 0x38400000 = 0x0300 := by decide

end Rawgd

namespace Rawgd

lemma readBytes_append : ∀ (l rest : List Nat), readBytes l.length (l ++ rest) = some (l, rest)
  | [], rest => rfl
  | b :: l, rest => by
    simp only [List.length_cons, List.cons_append, readBytes, readBytes_append l rest]

lemma readUint16LE_append (v : Nat) (rest : List Nat) :
    readUint16LE (toU16LE v ++ rest) = some (v % 65536, rest) := by
  simp only [toU16LE, List.cons_append, List.nil_append, readUint16LE]
  congr 1
  have : v % 256 + v / 256 % 256 * 256 = v % 65536 := by omega
  rw [this]

lemma readUint16List_flatten : ∀ (vs : List Nat) (rest : List Nat),
    readUint16List vs.length ((vs.map toU16LE).flatten ++ rest) =
      some (vs.map (· % 65536), rest)
  | [], rest => rfl
  | v :: vs, rest => by
    simp only [List.length_cons, List.map_cons, List.flatten_cons, readUint16List,
      List.append_assoc, readUint16LE_append, readUint16List_flatten vs rest]

end Rawgd

namespace Rawgd

lemma readInt16LE_append (q : Int) (rest : List Nat) :
    readInt16LE (int16ToBytesLE q ++ rest) =
      some (int16OfUint16 (q % 65536).toNat, rest) := by
  simp only [int16ToBytesLE, readInt16LE, readUint16LE_append]
  have h1 : 0 ≤ q % 65536 := Int.emod_nonneg q (by norm_num)
  have h2 : q % 65536 < 65536 := Int.emod_lt_of_pos q (by norm_num)
  have h : (q % 65536).toNat % 65536 = (q % 65536).toNat := by omega
  rw [h]

lemma readInt16List_uvBytes : ∀ (us : List ℚ) (rest : List Nat),
    readInt16List us.length (uvBytes us ++ rest) =
      some (us.map (fun u => int16OfUint16 ((uvQuantize u) % 65536).toNat), rest)
  | [], rest => rfl
  | u :: us, rest => by
    simp only [List.length_cons, uvBytes, List.map_cons, List.flatten_cons, readInt16List,
      List.append_assoc, uvEncodeComponent, readInt16LE_append]
    have ih := readInt16List_uvBytes us rest
    simp only [uvBytes] at ih
    rw [ih]

lemma readPairs_normalsBytes : ∀ (ns : List ℚ) (n : Nat) (rest : List Nat),
    ns.length = 3 * n →
    readPairs n (normalsBytes ns ++ rest) = some (octPairs ns, rest)
  | [], 0, rest, _ => rfl
  | [], n + 1, _, h => by simp only [List.length_nil] at h; omega
  | [x], n, _, h => by simp only [List.length_cons, List.length_nil] at h; omega
  | [x, y], n, _, h => by simp only [List.length_cons, List.length_nil] at h; omega
  | x :: y :: z :: ns, 0, _, h => by simp only [List.length_cons] at h; omega
  | x :: y :: z :: ns, n + 1, rest, h => by
    simp only [normalsBytes, octPairs, List.cons_append, readPairs]
    rw [readPairs_normalsBytes ns n rest (by simp only [List.length_cons] at h; omega)]

lemma readUint16List_rgbaBytes : ∀ (cs : List ℚ) (n : Nat) (rest : List Nat),
    cs.length = 4 * n →
    readUint16List n (rgbaBytes cs ++ rest) = some (rgbaStored cs, rest)
  | [], 0, rest, _ => rfl
  | [], n + 1, _, h => by simp only [List.length_nil] at h; omega
  | [r], n, _, h => by simp only [List.length_cons, List.length_nil] at h; omega
  | [r, g], n, _, h => by simp only [List.length_cons, List.length_nil] at h; omega
  | [r, g, b], n, _, h => by simp only [List.length_cons, List.length_nil] at h; omega
  | r :: g :: b :: a :: cs, 0, _, h => by simp only [List.length_cons] at h; omega
  | r :: g :: b :: a :: cs, n + 1, rest, h => by
    simp only [rgbaBytes, rgbaStored, List.append_assoc, readUint16List, readUint16LE_append]
    rw [readUint16List_rgbaBytes cs n rest (by simp only [List.length_cons] at h; omega)]

lemma readUint16List_rgbBytes : ∀ (cs : List ℚ) (n : Nat) (rest : List Nat),
    cs.length = 3 * n →
    readUint16List n (rgbBytes cs ++ rest) = some (rgbStored cs, rest)
  | [], 0, rest, _ => rfl
  | [], n + 1, _, h => by simp only [List.length_nil] at h; omega
  | [r], n, _, h => by simp only [List.length_cons, List.length_nil] at h; omega
  | [r, g], n, _, h => by simp only [List.length_cons, List.length_nil] at h; omega
  | r :: g :: b :: cs, 0, _, h => by simp only [List.length_cons] at h; omega
  | r :: g :: b :: cs, n + 1, rest, h => by
    simp only [rgbBytes, rgbStored, List.append_assoc, readUint16List, readUint16LE_append]
    rw [readUint16List_rgbBytes cs n rest (by simp only [List.length_cons] at h; omega)]

end Rawgd

namespace Rawgd

lemma encodeFlags_and_indices (g : Geometry) :
    encodeFlags g &&& HAS_INDICES = if g.indices.isSome then 1 else 0 := by
  rcases g with ⟨v, i, n, u, c⟩
  cases i <;> cases n <;> cases u <;> cases c <;>
    simp only [encodeFlags, Option.isSome_some, Option.isSome_none, if_true, if_false,
      Bool.false_eq_true, HAS_INDICES, HAS_NORMALS, HAS_UVS, HAS_RGBA5551, HAS_RGB565] <;>
    first
      | decide
      | (split_ifs <;> decide)

end Rawgd

namespace Rawgd

lemma encodeFlags_and_normals (g : Geometry) :
    encodeFlags g &&& HAS_NORMALS = if g.normals.isSome then 2 else 0 := by
  rcases g with ⟨v, i, n, u, c⟩
  cases i <;> cases n <;> cases u <;> cases c <;>
    simp only [encodeFlags, Option.isSome_some, Option.isSome_none, if_true, if_false,
      Bool.false_eq_true, HAS_INDICES, HAS_NORMALS, HAS_UVS, HAS_RGBA5551, HAS_RGB565] <;>
    first
      | decide
      | (split_ifs <;> decide)

lemma encodeFlags_and_uvs (g : Geometry) :
    encodeFlags g &&& HAS_UVS = if g.uvs.isSome then 4 else 0 := by
  rcases g with ⟨v, i, n, u, c⟩
  cases i <;> cases n <;> cases u <;> cases c <;>
    simp only [encodeFlags, Option.isSome_some, Option.isSome_none, if_true, if_false,
      Bool.false_eq_true, HAS_INDICES, HAS_NORMALS, HAS_UVS, HAS_RGBA5551, HAS_RGB565] <;>
    first
      | decide
      | (split_ifs <;> decide)

lemma encodeFlags_and_rgba (g : Geometry) :
    encodeFlags g &&& HAS_RGBA5551 =
      (match g.colors with
        | none => 0
        | some cs =>
          if (cs.length : ℚ) = (g.vertices.length : ℚ) / 3 * 4 then 8 else 0) := by
  rcases g with ⟨v, i, n, u, c⟩
  cases i <;> cases n <;> cases u <;> cases c <;>
    simp only [encodeFlags, Option.isSome_some, Option.isSome_none, if_true, if_false,
      Bool.false_eq_true, HAS_INDICES, HAS_NORMALS, HAS_UVS, HAS_RGBA5551, HAS_RGB565] <;>
    first
      | decide
      | (split_ifs <;> decide)

lemma encodeFlags_and_rgb (g : Geometry) :
    encodeFlags g &&& HAS_RGB565 =
      (match g.colors with
        | none => 0
        | some cs =>
          if (cs.length : ℚ) = (g.vertices.length : ℚ) / 3 * 4 then 0 else 16) := by
  rcases g with ⟨v, i, n, u, c⟩
  cases i <;> cases n <;> cases u <;> cases c <;>
    simp only [encodeFlags, Option.isSome_some, Option.isSome_none, if_true, if_false,
      Bool.false_eq_true, HAS_INDICES, HAS_NORMALS, HAS_UVS, HAS_RGBA5551, HAS_RGB565] <;>
    first
      | decide
      | (split_ifs <;> decide)

end Rawgd

namespace Rawgd

lemma parseIndices_none (g : Geometry) (hgi : g.indices = none) (l : List Nat) :
    parseIndices (encodeFlags g) l = some (none, l) := by
  have hbit := encodeFlags_and_indices g
  rw [hgi] at hbit
  simp only [Option.isSome_none, Bool.false_eq_true, if_false] at hbit
  simp only [parseIndices, hbit, ne_eq, not_true_eq_false, if_false]

lemma parseIndices_encode (g : Geometry) (idxs : List Nat) (rest : List Nat)
    (hgi : g.indices = some idxs) (hlen : idxs.length < 65536)
    (hvals : ∀ i ∈ idxs, i < 65536) :
    parseIndices (encodeFlags g) (indicesBytes idxs ++ rest) = some (some idxs, rest) := by
  have hbit := encodeFlags_and_indices g
  rw [hgi] at hbit
  simp only [Option.isSome_some, if_true] at hbit
  simp only [parseIndices, hbit, ne_eq, one_ne_zero, not_false_eq_true, if_true,
    indicesBytes, List.append_assoc, readUint16LE_append]
  have hl : idxs.length % 65536 = idxs.length := by omega
  rw [hl, readUint16List_flatten]
  have hmap : idxs.map (· % 65536) = idxs := by
    conv_rhs => rw [← List.map_id idxs]
    exact List.map_congr_left (fun i hi => by simp [Nat.mod_eq_of_lt (hvals i hi)])
  rw [hmap]

end Rawgd

namespace Rawgd

lemma parseNormals_none (g : Geometry) (hgn : g.normals = none) (vc : Nat) (l : List Nat) :
    parseNormals (encodeFlags g) vc l = some (none, l) := by
  have hbit := encodeFlags_and_normals g
  rw [hgn] at hbit
  simp only [Option.isSome_none, Bool.false_eq_true, if_false] at hbit
  simp only [parseNormals, hbit, ne_eq, not_true_eq_false, if_false]

lemma parseNormals_encode (g : Geometry) (ns : List ℚ) (n : Nat) (rest : List Nat)
    (hgn : g.normals = some ns) (hlen : ns.length = 3 * n) :
    parseNormals (encodeFlags g) n (normalsBytes ns ++ rest) = some (some (octPairs ns), rest) := by
  have hbit := encodeFlags_and_normals g
  rw [hgn] at hbit
  simp only [Option.isSome_some, if_true] at hbit
  simp only [parseNormals, hbit, ne_eq, OfNat.ofNat_ne_zero, not_false_eq_true, if_true]
  rw [readPairs_normalsBytes ns n rest hlen]

lemma parseUVs_none (g : Geometry) (hgu : g.uvs = none) (vc : Nat) (l : List Nat) :
    parseUVs (encodeFlags g) vc l = some (none, l) := by
  have hbit := encodeFlags_and_uvs g
  rw [hgu] at hbit
  simp only [Option.isSome_none, Bool.false_eq_true, if_false] at hbit
  simp only [parseUVs, hbit, ne_eq, not_true_eq_false, if_false]

lemma parseUVs_encode (g : Geometry) (us : List ℚ) (n : Nat) (rest : List Nat)
    (hgu : g.uvs = some us) (hlen : us.length = 2 * n) :
    parseUVs (encodeFlags g) n (uvBytes us ++ rest) =
      some (some (us.map uvRoundTrip), rest) := by
  have hbit := encodeFlags_and_uvs g
  rw [hgu] at hbit
  simp only [Option.isSome_some, if_true] at hbit
  simp only [parseUVs, hbit, ne_eq, OfNat.ofNat_ne_zero, not_false_eq_true, if_true]
  have hc : n * 2 = us.length := by omega
  rw [hc, readInt16List_uvBytes us rest]
  simp only [List.map_map]
  rfl

lemma parseColors_none (g : Geometry) (hgc : g.colors = none) (vc : Nat) (l : List Nat) :
    parseColors (encodeFlags g) vc l = some ((none, none), l) := by
  have hbitA := encodeFlags_and_rgba g
  have hbitB := encodeFlags_and_rgb g
  rw [hgc] at hbitA hbitB
  simp only at hbitA hbitB
  simp only [parseColors, hbitA, hbitB, ne_eq, not_true_eq_false, if_false]

lemma parseColors_rgba (g : Geometry) (cs : List ℚ) (n : Nat) (rest : List Nat)
    (hgc : g.colors = some cs)
    (hcond : (cs.length : ℚ) = (g.vertices.length : ℚ) / 3 * 4)
    (hlen : cs.length = 4 * n) :
    parseColors (encodeFlags g) n (rgbaBytes cs ++ rest) =
      some ((none, some (rgbaRoundTrip cs)), rest) := by
  have hbitA := encodeFlags_and_rgba g
  rw [hgc] at hbitA
  simp only [hcond, if_true] at hbitA
  simp only [parseColors, hbitA, ne_eq, OfNat.ofNat_ne_zero, not_false_eq_true, if_true]
  rw [readUint16List_rgbaBytes cs n rest hlen]
  rfl

lemma parseColors_rgb (g : Geometry) (cs : List ℚ) (n : Nat) (rest : List Nat)
    (hgc : g.colors = some cs)
    (hcond : ¬ (cs.length : ℚ) = (g.vertices.length : ℚ) / 3 * 4)
    (hlen : cs.length = 3 * n) :
    parseColors (encodeFlags g) n (rgbBytes cs ++ rest) =
      some ((some (rgbRoundTrip cs), none), rest) := by
  have hbitA := encodeFlags_and_rgba g
  have hbitB := encodeFlags_and_rgb g
  rw [hgc] at hbitA hbitB
  simp only [hcond, if_false] at hbitA hbitB
  simp only [parseColors, hbitA, hbitB, ne_eq, not_true_eq_false, if_false,
    OfNat.ofNat_ne_zero, not_false_eq_true, if_true]
  rw [readUint16List_rgbBytes cs n rest hlen]
  rfl

end Rawgd

namespace Rawgd

theorem decode_encode (g : Geometry) (hwf : WellFormed g) :
    decode (encode g) = .ok (roundTripGeometry g) := by
  obtain ⟨hv3, hvc, hidx, hnorm, huv, hcol⟩ := hwf
  simp only [vertexCount] at hv3 hvc hidx hnorm huv hcol
  simp only [encode, decode, List.append_assoc, List.singleton_append]
  rw [readBytes_append]
  simp only [ne_eq, not_true_eq_false, if_false, List.cons_append, List.singleton_append,
    List.nil_append, readUint8, readUint16LE_append]
  have hN : g.vertices.length / 3 % 65536 = g.vertices.length / 3 := by omega
  rw [hN]
  have hfb : float16Bytes g.vertices = ((g.vertices.map float32ToFloat16).map toU16LE).flatten := by
    simp only [float16Bytes, List.map_map]
    rfl
  have hc3 : g.vertices.length / 3 * 3 = (g.vertices.map float32ToFloat16).length := by
    simp only [List.length_map]
    omega
  rw [hfb, hc3, readUint16List_flatten]
  have hvals : (g.vertices.map float32ToFloat16).map (· % 65536) = g.vertices.map float32ToFloat16 := by
    simp only [List.map_map]
    apply List.map_congr_left
    intro v _
    simp only [Function.comp_apply]
    exact Nat.mod_eq_of_lt (float32ToFloat16_lt v)
  rw [hvals]
  have stepIdx : ∀ r : List Nat,
      parseIndices (encodeFlags g)
        ((match g.indices with | some idxs => indicesBytes idxs | none => []) ++ r) =
      some (g.indices, r) := by
    rcases hgi : g.indices with _ | idxs <;> intro r
    · simp only [List.nil_append]
      exact parseIndices_none g hgi r
    · obtain ⟨h1, h2⟩ := hidx idxs (by rw [Option.mem_def]; exact hgi)
      exact parseIndices_encode g idxs r hgi h1 h2
  have stepNorm : ∀ r : List Nat,
      parseNormals (encodeFlags g) (g.vertices.length / 3)
        ((match g.normals with | some ns => normalsBytes ns | none => []) ++ r) =
      some (g.normals.map octPairs, r) := by
    rcases hgn : g.normals with _ | ns <;> intro r
    · simp only [List.nil_append, Option.map_none]
      exact parseNormals_none g hgn _ r
    · simp only [Option.map_some]
      exact parseNormals_encode g ns _ r hgn (hnorm ns (by rw [Option.mem_def]; exact hgn))
  have stepUV : ∀ r : List Nat,
      parseUVs (encodeFlags g) (g.vertices.length / 3)
        ((match g.uvs with | some us => uvBytes us | none => []) ++ r) =
      some (g.uvs.map (List.map uvRoundTrip), r) := by
    rcases hgu : g.uvs with _ | us <;> intro r
    · simp only [List.nil_append, Option.map_none]
      exact parseUVs_none g hgu _ r
    · simp only [Option.map_some]
      exact parseUVs_encode g us _ r hgu (huv us (by rw [Option.mem_def]; exact hgu))
  have stepCol : ∀ r : List Nat,
      parseColors (encodeFlags g) (g.vertices.length / 3)
        ((match g.colors with
          | some cs =>
            if ¬encodeFlags g &&& HAS_RGBA5551 = 0 then rgbaBytes cs else rgbBytes cs
          | none => []) ++ r) =
      some (((roundTripGeometry g).colorsRGB, (roundTripGeometry g).colorsRGBA), r) := by
    rcases hgc : g.colors with _ | cs <;> intro r
    · simp only [List.nil_append, roundTripGeometry, hgc]
      exact parseColors_none g hgc _ r
    · by_cases hcond : (cs.length : ℚ) = (g.vertices.length : ℚ) / 3 * 4
      · have hlen4 : cs.length = 4 * (g.vertices.length / 3) := by
          have hq : (cs.length : ℚ) = ((4 * (g.vertices.length / 3) : Nat) : ℚ) := by
            push_cast
            rw [hcond]
            conv_lhs => rw [hv3]
            push_cast
            ring
          exact_mod_cast hq
        have hbit : encodeFlags g &&& HAS_RGBA5551 = 8 := by
          rw [encodeFlags_and_rgba g, hgc]
          simp only [hcond, if_true]
        rw [hbit]
        simp only [ne_eq, OfNat.ofNat_ne_zero, not_false_eq_true, if_true,
          roundTripGeometry, hgc, hcond]
        exact parseColors_rgba g cs _ r hgc hcond hlen4
      · have hlen3 : cs.length = 3 * (g.vertices.length / 3) := by
          rcases hcol cs (by rw [Option.mem_def]; exact hgc) with h4 | h3
          · exfalso
            apply hcond
            rw [h4]
            conv_rhs => rw [hv3]
            push_cast
            ring
          · exact h3
        have hbit : encodeFlags g &&& HAS_RGBA5551 = 0 := by
          rw [encodeFlags_and_rgba g, hgc]
          simp only [hcond, if_false]
        rw [hbit]
        simp only [ne_eq, not_true_eq_false, if_false, roundTripGeometry, hgc, hcond]
        exact parseColors_rgb g cs _ r hgc hcond hlen3
  have stepColNil : parseColors (encodeFlags g) (g.vertices.length / 3)
      (match g.colors with
        | some cs =>
          if ¬encodeFlags g &&& HAS_RGBA5551 = 0 then rgbaBytes cs else rgbBytes cs
        | none => []) =
      some (((roundTripGeometry g).colorsRGB, (roundTripGeometry g).colorsRGBA), []) := by
    have h := stepCol []
    rwa [List.append_nil] at h
  simp only [stepIdx, stepNorm, stepUV, stepColNil]
  simp only [roundTripGeometry, List.map_map]
  rfl

end Rawgd

namespace Rawgd

/-! # Decoder structure lemmas -/

/-- `readBytes` on a long-enough buffer returns the prefix and the rest. -/
lemma readBytes_take_drop : ∀ (n : Nat) (l : List Nat), n ≤ l.length →
    readBytes n l = some (l.take n, l.drop n)
  | 0, l, _ => rfl
  | n + 1, [], h => by simp at h
  | n + 1, b :: l, h => by
    simp only [readBytes, readBytes_take_drop n l (by simpa using h),
      List.take_succ_cons, List.drop_succ_cons]

/-- A successful `readUint8` means the buffer starts with that byte. -/
lemma readUint8_inv (l : List Nat) (b : Nat) (r : List Nat) (h : readUint8 l = some (b, r)) :
    l = b :: r := by
  cases l with
  | nil => simp [readUint8] at h
  | cons x xs =>
    simp only [readUint8, Option.some.injEq, Prod.mk.injEq] at h
    rw [h.1, h.2]

/-- A successful `readBytes` splits the buffer as prefix ++ rest. -/
lemma readBytes_inv : ∀ (n : Nat) (l bs r : List Nat), readBytes n l = some (bs, r) →
    l = bs ++ r
  | 0, l, bs, r, h => by
    simp only [readBytes, Option.some.injEq, Prod.mk.injEq] at h
    rw [← h.1, ← h.2]
    rfl
  | n + 1, l, bs, r, h => by
    cases l with
    | nil => simp [readBytes] at h
    | cons x xs =>
      simp only [readBytes] at h
      cases hrec : readBytes n xs with
      | none => rw [hrec] at h; simp at h
      | some p =>
        obtain ⟨bs', r'⟩ := p
        rw [hrec] at h
        simp only [Option.some.injEq, Prod.mk.injEq] at h
        have := readBytes_inv n xs bs' r' hrec
        rw [← h.1, ← h.2, this]
        rfl

end Rawgd

namespace Rawgd

/-- Inversion for a successful decode: the magic matched, byte 6 of the
buffer is the flags byte, and the decoded color fields follow the flags:
RGBA5551 set → `colorsRGBA` populated and `colorsRGB` null; else RGB565
set → `colorsRGB` populated and `colorsRGBA` null; else both null. -/
lemma decode_ok_shape (buf : List Nat) (geo : DecodedGeometry) (h : decode buf = .ok geo) :
    buf.take 5 = MAGIC ∧
    ∃ flags : Nat, buf.get? 6 = some flags ∧
      ((flags &&& HAS_RGBA5551 ≠ 0 ∧ geo.colorsRGB = none ∧ geo.colorsRGBA.isSome) ∨
       (flags &&& HAS_RGBA5551 = 0 ∧ flags &&& HAS_RGB565 ≠ 0 ∧
         geo.colorsRGB.isSome ∧ geo.colorsRGBA = none) ∨
       (flags &&& HAS_RGBA5551 = 0 ∧ flags &&& HAS_RGB565 = 0 ∧
         geo.colorsRGB = none ∧ geo.colorsRGBA = none)) := by
  unfold decode at h
  cases h1 : readBytes MAGIC.length buf with
  | none => simp [h1] at h
  | some p1 =>
  obtain ⟨magic, r1⟩ := p1
  simp only [h1] at h
  by_cases hm : magic ≠ MAGIC
  · rw [if_pos hm] at h; simp at h
  · rw [if_neg hm] at h
    push_neg at hm
    subst hm
    have hbuf1 := readBytes_inv _ _ _ _ h1
    cases h2 : readUint8 r1 with
    | none => simp [h2] at h
    | some p2 =>
    obtain ⟨vb, r2⟩ := p2
    simp only [h2] at h
    have hr1 := readUint8_inv _ _ _ h2
    cases h3 : readUint8 r2 with
    | none => simp [h3] at h
    | some p3 =>
    obtain ⟨flags, r3⟩ := p3
    simp only [h3] at h
    have hr2 := readUint8_inv _ _ _ h3
    cases h4 : readUint16LE r3 with
    | none => simp [h4] at h
    | some p4 =>
    obtain ⟨vc, r4⟩ := p4
    simp only [h4] at h
    cases h5 : readUint16List (vc * 3) r4 with
    | none => simp [h5] at h
    | some p5 =>
    obtain ⟨halves, r5⟩ := p5
    simp only [h5] at h
    cases h6 : parseIndices flags r5 with
    | none => simp [h6] at h
    | some p6 =>
    obtain ⟨indices, r6⟩ := p6
    simp only [h6] at h
    cases h7 : parseNormals flags vc r6 with
    | none => simp [h7] at h
    | some p7 =>
    obtain ⟨normals, r7⟩ := p7
    simp only [h7] at h
    cases h8 : parseUVs flags vc r7 with
    | none => simp [h8] at h
    | some p8 =>
    obtain ⟨uvs, r8⟩ := p8
    simp only [h8] at h
    cases h9 : parseColors flags vc r8 with
    | none => simp [h9] at h
    | some p9 =>
    obtain ⟨⟨cRGB, cRGBA⟩, r9⟩ := p9
    simp only [h9] at h
    simp only [Except.ok.injEq] at h
    subst h
    constructor
    · rw [hbuf1]
      rfl
    · refine ⟨flags, ?_, ?_⟩
      · rw [hbuf1, hr1, hr2]
        rfl
      · unfold parseColors at h9
        by_cases c8 : flags &&& HAS_RGBA5551 ≠ 0
        · rw [if_pos c8] at h9
          cases h10 : readUint16List vc r8 with
          | none => simp [h10] at h9
          | some p10 =>
            obtain ⟨vs, r10⟩ := p10
            simp only [h10] at h9
            simp only [Option.some.injEq, Prod.mk.injEq] at h9
            left
            refine ⟨c8, ?_, ?_⟩
            · exact h9.1.1.symm
            · rw [← h9.1.2]
              simp
        · rw [if_neg c8] at h9
          push_neg at c8
          by_cases c16 : flags &&& HAS_RGB565 ≠ 0
          · rw [if_pos c16] at h9
            cases h10 : readUint16List vc r8 with
            | none => simp [h10] at h9
            | some p10 =>
              obtain ⟨vs, r10⟩ := p10
              simp only [h10] at h9
              simp only [Option.some.injEq, Prod.mk.injEq] at h9
              right; left
              refine ⟨c8, c16, ?_, ?_⟩
              · rw [← h9.1.1]
                simp
              · exact h9.1.2.symm
          · rw [if_neg c16] at h9
            push_neg at c16
            simp only [Option.some.injEq, Prod.mk.injEq] at h9
            right; right
            exact ⟨c8, c16, h9.1.1.symm, h9.1.2.symm⟩

end Rawgd

namespace Rawgd

/-- Once the 5 magic bytes match, no later step of `decode` can raise
the format-invalid error: every remaining failure is `outOfBounds`. -/
lemma decode_magic_ok_not_formatInvalid (buf : List Nat) (heq : buf.take 5 = MAGIC) :
    decode buf ≠ .error .formatInvalid := by
  intro h
  have hlen : 5 ≤ buf.length := by
    have hl := congrArg List.length heq
    simp only [List.length_take, MAGIC, List.length_cons, List.length_nil] at hl
    omega
  unfold decode at h
  rw [show MAGIC.length = 5 from rfl, readBytes_take_drop 5 buf hlen] at h
  simp only [heq, ne_eq, not_true_eq_false, if_false] at h
  cases h2 : readUint8 (buf.drop 5) with
  | none => simp [h2] at h
  | some p2 =>
  obtain ⟨vb, r2⟩ := p2
  simp only [h2] at h
  cases h3 : readUint8 r2 with
  | none => simp [h3] at h
  | some p3 =>
  obtain ⟨flags, r3⟩ := p3
  simp only [h3] at h
  cases h4 : readUint16LE r3 with
  | none => simp [h4] at h
  | some p4 =>
  obtain ⟨vc, r4⟩ := p4
  simp only [h4] at h
  cases h5 : readUint16List (vc * 3) r4 with
  | none => simp [h5] at h
  | some p5 =>
  obtain ⟨halves, r5⟩ := p5
  simp only [h5] at h
  cases h6 : parseIndices flags r5 with
  | none => simp [h6] at h
  | some p6 =>
  obtain ⟨indices, r6⟩ := p6
  simp only [h6] at h
  cases h7 : parseNormals flags vc r6 with
  | none => simp [h7] at h
  | some p7 =>
  obtain ⟨normals, r7⟩ := p7
  simp only [h7] at h
  cases h8 : parseUVs flags vc r7 with
  | none => simp [h8] at h
  | some p8 =>
  obtain ⟨uvs, r8⟩ := p8
  simp only [h8] at h
  cases h9 : parseColors flags vc r8 with
  | none => simp [h9] at h
  | some p9 =>
  obtain ⟨⟨cRGB, cRGBA⟩, r9⟩ := p9
  simp [h9] at h

end Rawgd

namespace Rawgd

/-- C4: on any buffer of at least 5 bytes whose first 5 bytes differ
from the magic constant, `decode` fails with the format-invalid error
and returns no geometry; conversely, on any buffer whose first 5 bytes
equal the magic constant, `decode` never raises that error. -/
theorem magic_gate (buf : List Nat) :
    (5 ≤ buf.length → buf.take 5 ≠ MAGIC → decode buf = .error .formatInvalid) ∧
    (buf.take 5 = MAGIC → decode buf ≠ .error .formatInvalid) := by
  constructor
  · intro hlen hne
    unfold decode
    rw [show MAGIC.length = 5 from rfl, readBytes_take_drop 5 buf hlen]
    simp [hne]
  · exact decode_magic_ok_not_formatInvalid buf

/-- Witness for C4 at a wrong-magic buffer and a right-magic buffer. -/
theorem magic_gate_witness :
    (5 ≤ ([0, 0, 0, 0, 0] : List Nat).length ∧ ([0, 0, 0, 0, 0] : List Nat).take 5 ≠ MAGIC ∧
      decode [0, 0, 0, 0, 0] = .error .formatInvalid) ∧
    (([82, 65, 87, 71, 68] : List Nat).take 5 = MAGIC ∧
      decode [82, 65, 87, 71, 68] ≠ .error .formatInvalid) :=
  ⟨⟨by decide, by decide, (magic_gate [0, 0, 0, 0, 0]).1 (by decide) (by decide)⟩,
   ⟨by decide, (magic_gate [82, 65, 87, 71, 68]).2 (by decide)⟩⟩

/-- C5: for every geometry record satisfying the documented length
preconditions (`WellFormed`: vertex count below 2^16, 16-bit indices
with a 16-bit count), decoding the encoder's output succeeds and yields
a vertices array of length `3 * vertexCount` (the original count) and
an indices array elementwise equal to the original. -/
theorem full_roundtrip_counts (g : Geometry) (hwf : WellFormed g) :
    ∃ geo : DecodedGeometry, decode (encode g) = .ok geo ∧
      geo.vertices.length = 3 * vertexCount g ∧ geo.indices = g.indices := by
  refine ⟨roundTripGeometry g, decode_encode g hwf, ?_, rfl⟩
  simp only [roundTripGeometry, List.length_map]
  exact hwf.1

/-- Witness for C5 on a one-vertex, three-index geometry. -/
theorem full_roundtrip_counts_witness :
    WellFormed ⟨[1065353216, 1073741824, 3221225472], some [0, 0, 0], none, none, none⟩ ∧
    ∃ geo : DecodedGeometry,
      decode (encode ⟨[1065353216, 1073741824, 3221225472], some [0, 0, 0], none, none, none⟩) =
          .ok geo ∧
        geo.vertices.length =
          3 * vertexCount ⟨[1065353216, 1073741824, 3221225472], some [0, 0, 0], none, none, none⟩ ∧
        geo.indices = some [0, 0, 0] := by
  have hwf : WellFormed ⟨[1065353216, 1073741824, 3221225472], some [0, 0, 0], none, none, none⟩ := by
    refine ⟨rfl, by decide, ?_, ?_, ?_, ?_⟩ <;> intro x hx <;> rw [Option.mem_def] at hx
    · injection hx with hx
      subst hx
      exact ⟨by decide, by decide⟩
    · cases hx
    · cases hx
    · cases hx
  exact ⟨hwf, full_roundtrip_counts _ hwf⟩

end Rawgd

namespace Rawgd

/-- Byte 6 of every encoded buffer is the computed flags byte. -/
lemma encode_get6 (g : Geometry) : (encode g).get? 6 = some (encodeFlags g) := rfl

/-- C6: the encoder never sets both color flag bits in the flags byte
of an output buffer, and for every buffer a successful decode returns
exactly one of `colorsRGB`/`colorsRGBA` non-null when at least one
color flag bit is set in the buffer's flags byte, and both null when
neither bit is set. -/
theorem flag_exclusivity :
    (∀ (g : Geometry) (f : Nat), (encode g).get? 6 = some f →
        ¬(f &&& HAS_RGBA5551 ≠ 0 ∧ f &&& HAS_RGB565 ≠ 0)) ∧
    (∀ (buf : List Nat) (geo : DecodedGeometry) (f : Nat),
        decode buf = .ok geo → buf.get? 6 = some f →
        ((f &&& HAS_RGBA5551 ≠ 0 ∨ f &&& HAS_RGB565 ≠ 0 →
            (geo.colorsRGBA.isSome ∧ geo.colorsRGB = none) ∨
              (geo.colorsRGB.isSome ∧ geo.colorsRGBA = none)) ∧
          (f &&& HAS_RGBA5551 = 0 ∧ f &&& HAS_RGB565 = 0 →
            geo.colorsRGB = none ∧ geo.colorsRGBA = none))) := by
  constructor
  · intro g f hf
    rw [encode_get6] at hf
    injection hf with hf
    subst hf
    rintro ⟨hA, hB⟩
    have h8 := encodeFlags_and_rgba g
    have h16 := encodeFlags_and_rgb g
    rcases hgc : g.colors with _ | cs
    · rw [hgc] at h8
      simp only at h8
      exact hA h8
    · rw [hgc] at h8 h16
      by_cases hcond : (cs.length : ℚ) = (g.vertices.length : ℚ) / 3 * 4
      · simp only [hcond, if_true] at h16
        exact hB h16
      · simp only [hcond, if_false] at h8
        exact hA h8
  · intro buf geo f hdec hget
    obtain ⟨-, flags, hget', hdisj⟩ := decode_ok_shape buf geo hdec
    rw [hget'] at hget
    injection hget with hget
    subst hget
    constructor
    · intro _
      rcases hdisj with ⟨h8, hrgb, hrgba⟩ | ⟨h8, h16, hrgb, hrgba⟩ | ⟨h8, h16, hrgb, hrgba⟩
      · exact Or.inl ⟨hrgba, hrgb⟩
      · exact Or.inr ⟨hrgb, hrgba⟩
      · rename_i hor
        rcases hor with hA | hB
        · exact absurd h8 hA
        · exact absurd h16 hB
    · rintro ⟨hA, hB⟩
      rcases hdisj with ⟨h8, hrgb, hrgba⟩ | ⟨h8, h16, hrgb, hrgba⟩ | ⟨h8, h16, hrgb, hrgba⟩
      · exact absurd hA h8
      · exact absurd hB h16
      · exact ⟨hrgb, hrgba⟩

/-- Witness for C6: an encoded buffer with the RGBA5551 flag, and a
decode of a buffer with only the RGB565 flag. -/
theorem flag_exclusivity_witness :
    ((encode ⟨[], none, none, none, some []⟩).get? 6 = some 8 ∧
      ¬((8 : Nat) &&& HAS_RGBA5551 ≠ 0 ∧ (8 : Nat) &&& HAS_RGB565 ≠ 0)) ∧
    (decode [82, 65, 87, 71, 68, 16, 16, 0, 0] =
        .ok ⟨(1, 0), [], none, none, none, some [], none⟩ ∧
      (((⟨(1, 0), [], none, none, none, some [], none⟩ : DecodedGeometry).colorsRGBA.isSome ∧
          (⟨(1, 0), [], none, none, none, some [], none⟩ : DecodedGeometry).colorsRGB = none) ∨
        ((⟨(1, 0), [], none, none, none, some [], none⟩ : DecodedGeometry).colorsRGB.isSome ∧
          (⟨(1, 0), [], none, none, none, some [], none⟩ : DecodedGeometry).colorsRGBA = none))) := by
  have hflags : encodeFlags ⟨[], none, none, none, some []⟩ = 8 := by
    simp [encodeFlags, HAS_RGBA5551]
  have hget : (encode ⟨[], none, none, none, some []⟩).get? 6 = some 8 := by
    rw [encode_get6, hflags]
  exact ⟨⟨hget, flag_exclusivity.1 _ 8 hget⟩, rfl,
    (flag_exclusivity.2 [82, 65, 87, 71, 68, 16, 16, 0, 0]
      ⟨(1, 0), [], none, none, none, some [], none⟩ 16 rfl rfl).1 (by decide)⟩

/-- C9: for every otherwise well-formed buffer whose flags byte has
both color bits 0x08 and 0x10 set — a state the encoder never produces
— a successful decode returns `colorsRGBA` non-null and `colorsRGB`
null: the RGBA5551 branch takes precedence and RGB565 is ignored. -/
theorem dual_flag_precedence :
    ∀ (buf : List Nat) (geo : DecodedGeometry) (f : Nat),
      decode buf = .ok geo → buf.get? 6 = some f →
      f &&& HAS_RGBA5551 ≠ 0 → f &&& HAS_RGB565 ≠ 0 →
      geo.colorsRGBA.isSome ∧ geo.colorsRGB = none := by
  intro buf geo f hdec hget h8 h16
  obtain ⟨-, flags, hget', hdisj⟩ := decode_ok_shape buf geo hdec
  rw [hget'] at hget
  injection hget with hget
  subst hget
  rcases hdisj with ⟨-, hrgb, hrgba⟩ | ⟨hz, -, -, -⟩ | ⟨hz, -, -, -⟩
  · exact ⟨hrgba, hrgb⟩
  · exact absurd hz h8
  · exact absurd hz h8

/-- Witness for C9: a 9-byte buffer with flags 0x18 (both color bits). -/
theorem dual_flag_precedence_witness :
    decode [82, 65, 87, 71, 68, 16, 24, 0, 0] =
        .ok ⟨(1, 0), [], none, none, none, none, some []⟩ ∧
      ([82, 65, 87, 71, 68, 16, 24, 0, 0] : List Nat).get? 6 = some 24 ∧
      (24 : Nat) &&& HAS_RGBA5551 ≠ 0 ∧ (24 : Nat) &&& HAS_RGB565 ≠ 0 ∧
      ((⟨(1, 0), [], none, none, none, none, some []⟩ : DecodedGeometry).colorsRGBA.isSome ∧
        (⟨(1, 0), [], none, none, none, none, some []⟩ : DecodedGeometry).colorsRGB = none) :=
  ⟨rfl, rfl, by decide, by decide,
    dual_flag_precedence [82, 65, 87, 71, 68, 16, 24, 0, 0] _ 24 rfl rfl (by decide) (by decide)⟩

end Rawgd

namespace Rawgd

/-! # Buffer size -/

/-- The vertex section stores two bytes per float component. -/
lemma float16Bytes_length : ∀ (l : List Nat), (float16Bytes l).length = l.length * 2
  | [] => rfl
  | v :: l => by
    have ih := float16Bytes_length l
    simp only [float16Bytes, List.map_cons, List.flatten_cons, List.length_append,
      List.length_cons, List.length_nil, toU16LE] at ih ⊢
    omega

/-- The UV section stores two bytes per component. -/
lemma uvBytes_length : ∀ (us : List ℚ), (uvBytes us).length = us.length * 2
  | [] => rfl
  | u :: us => by
    have ih := uvBytes_length us
    simp only [uvBytes, List.map_cons, List.flatten_cons, List.length_append,
      List.length_cons, List.length_nil, uvEncodeComponent, int16ToBytesLE, toU16LE] at ih ⊢
    omega

/-- The index section stores a 2-byte count plus two bytes per index. -/
lemma indicesBytes_length (idxs : List Nat) :
    (indicesBytes idxs).length = 2 + idxs.length * 2 := by
  have h : ∀ l : List Nat, ((l.map toU16LE).flatten).length = l.length * 2 := by
    intro l
    induction l with
    | nil => rfl
    | cons v l ih =>
      simp only [List.map_cons, List.flatten_cons, List.length_append, List.length_cons,
        List.length_nil, toU16LE] at ih ⊢
      omega
  simp only [indicesBytes, List.length_append, toU16LE, List.length_cons, List.length_nil, h]

/-- The normal section stores two bytes per vertex (per input triple). -/
lemma normalsBytes_length : ∀ (ns : List ℚ) (k : Nat), ns.length = 3 * k →
    (normalsBytes ns).length = 2 * k
  | [], 0, _ => rfl
  | [], k + 1, h => by simp only [List.length_nil] at h; omega
  | [x], k, h => by simp only [List.length_cons, List.length_nil] at h; omega
  | [x, y], k, h => by simp only [List.length_cons, List.length_nil] at h; omega
  | x :: y :: z :: ns, 0, h => by simp only [List.length_cons] at h; omega
  | x :: y :: z :: ns, k + 1, h => by
    have ih := normalsBytes_length ns k (by simp only [List.length_cons] at h; omega)
    simp only [normalsBytes, List.length_cons, ih]
    omega

/-- The RGBA5551 section stores two bytes per vertex (per quadruple). -/
lemma rgbaBytes_length : ∀ (cs : List ℚ) (k : Nat), cs.length = 4 * k →
    (rgbaBytes cs).length = 2 * k
  | [], 0, _ => rfl
  | [], k + 1, h => by simp only [List.length_nil] at h; omega
  | [r], k, h => by simp only [List.length_cons, List.length_nil] at h; omega
  | [r, g], k, h => by simp only [List.length_cons, List.length_nil] at h; omega
  | [r, g, b], k, h => by simp only [List.length_cons, List.length_nil] at h; omega
  | r :: g :: b :: a :: cs, 0, h => by simp only [List.length_cons] at h; omega
  | r :: g :: b :: a :: cs, k + 1, h => by
    have ih := rgbaBytes_length cs k (by simp only [List.length_cons] at h; omega)
    simp only [rgbaBytes, List.length_append, toU16LE, List.length_cons, List.length_nil, ih]
    omega

/-- The RGB565 section stores two bytes per vertex (per triple). -/
lemma rgbBytes_length : ∀ (cs : List ℚ) (k : Nat), cs.length = 3 * k →
    (rgbBytes cs).length = 2 * k
  | [], 0, _ => rfl
  | [], k + 1, h => by simp only [List.length_nil] at h; omega
  | [r], k, h => by simp only [List.length_cons, List.length_nil] at h; omega
  | [r, g], k, h => by simp only [List.length_cons, List.length_nil] at h; omega
  | r :: g :: b :: cs, 0, h => by simp only [List.length_cons] at h; omega
  | r :: g :: b :: cs, k + 1, h => by
    have ih := rgbBytes_length cs k (by simp only [List.length_cons] at h; omega)
    simp only [rgbBytes, List.length_append, toU16LE, List.length_cons, List.length_nil, ih]
    omega

/-- C7: the byte length of an encoded buffer is exactly 9 (magic +
version + flags + vertex count) plus `vertices.length * 2`, plus for
each attribute present: `2 + indices.length * 2` for indices,
`normals.length * 2 / 3` for normals, `uvs.length * 2` for uvs, and
`vertexCount * 2` for colors in either format. -/
theorem encode_length (g : Geometry) (hwf : WellFormed g) :
    (encode g).length =
      9 + g.vertices.length * 2 +
      (match g.indices with | some idxs => 2 + idxs.length * 2 | none => 0) +
      (match g.normals with | some ns => ns.length * 2 / 3 | none => 0) +
      (match g.uvs with | some us => us.length * 2 | none => 0) +
      (match g.colors with | some _ => vertexCount g * 2 | none => 0) := by
  obtain ⟨hv3, hvc, hidx, hnorm, huv, hcol⟩ := hwf
  simp only [vertexCount] at hv3 hvc hnorm huv hcol ⊢
  have hIdx : (match g.indices with
      | some idxs => indicesBytes idxs
      | none => ([] : List Nat)).length =
      (match g.indices with | some idxs => 2 + idxs.length * 2 | none => 0) := by
    rcases g.indices with _ | idxs
    · rfl
    · exact indicesBytes_length idxs
  have hNor : (match g.normals with
      | some ns => normalsBytes ns
      | none => ([] : List Nat)).length =
      (match g.normals with | some ns => ns.length * 2 / 3 | none => 0) := by
    rcases hgn : g.normals with _ | ns
    · rfl
    · have hlen := hnorm ns (by rw [Option.mem_def]; exact hgn)
      have hn := normalsBytes_length ns (g.vertices.length / 3) hlen
      simp only [hn, hlen]
      omega
  have hUV : (match g.uvs with
      | some us => uvBytes us
      | none => ([] : List Nat)).length =
      (match g.uvs with | some us => us.length * 2 | none => 0) := by
    rcases g.uvs with _ | us
    · rfl
    · exact uvBytes_length us
  have hCol : (match g.colors with
      | some cs =>
        if ¬encodeFlags g &&& HAS_RGBA5551 = 0 then rgbaBytes cs else rgbBytes cs
      | none => ([] : List Nat)).length =
      (match g.colors with | some _ => g.vertices.length / 3 * 2 | none => 0) := by
    rcases hgc : g.colors with _ | cs
    · rfl
    · by_cases hcond : (cs.length : ℚ) = (g.vertices.length : ℚ) / 3 * 4
      · have hlen4 : cs.length = 4 * (g.vertices.length / 3) := by
          have hq : (cs.length : ℚ) = ((4 * (g.vertices.length / 3) : Nat) : ℚ) := by
            push_cast
            rw [hcond]
            conv_lhs => rw [hv3]
            push_cast
            ring
          exact_mod_cast hq
        have hbit : encodeFlags g &&& HAS_RGBA5551 = 8 := by
          rw [encodeFlags_and_rgba g, hgc]
          simp only [hcond, if_true]
        rw [hbit]
        simp only [ne_eq, OfNat.ofNat_ne_zero, not_false_eq_true, if_true]
        have hr := rgbaBytes_length cs (g.vertices.length / 3) hlen4
        omega
      · have hlen3 : cs.length = 3 * (g.vertices.length / 3) := by
          rcases hcol cs (by rw [Option.mem_def]; exact hgc) with h4 | h3
          · exfalso
            apply hcond
            rw [h4]
            conv_rhs => rw [hv3]
            push_cast
            ring
          · exact h3
        have hbit : encodeFlags g &&& HAS_RGBA5551 = 0 := by
          rw [encodeFlags_and_rgba g, hgc]
          simp only [hcond, if_false]
        rw [hbit]
        simp only [ne_eq, not_true_eq_false, if_false]
        have hr := rgbBytes_length cs (g.vertices.length / 3) hlen3
        omega
  simp only [encode, List.length_append, MAGIC, List.length_cons, List.length_nil,
    toU16LE, float16Bytes_length, hIdx, hNor, hUV, hCol]

end Rawgd

namespace Rawgd

/-- Witness for C7 on a one-vertex geometry with all attributes
(indices, normals, uvs, RGB colors): 9 + 6 + 4 + 2 + 4 + 2 = 27 bytes. -/
theorem encode_length_witness :
    WellFormed ⟨[1065353216, 0, 3212836864], some [0], some [0, 1, 0], some [1 / 2, 1 / 4],
        some [1, 0, 0]⟩ ∧
      (encode ⟨[1065353216, 0, 3212836864], some [0], some [0, 1, 0], some [1 / 2, 1 / 4],
          some [1, 0, 0]⟩).length = 27 := by
  have hwf : WellFormed ⟨[1065353216, 0, 3212836864], some [0], some [0, 1, 0],
      some [1 / 2, 1 / 4], some [1, 0, 0]⟩ := by
    refine ⟨rfl, by decide, ?_, ?_, ?_, ?_⟩ <;> intro x hx <;> rw [Option.mem_def] at hx <;>
      injection hx with hx <;> subst hx
    · exact ⟨by decide, by decide⟩
    · rfl
    · rfl
    · exact Or.inr rfl
  refine ⟨hwf, ?_⟩
  rw [encode_length _ hwf]
  rfl

/-! # UV quantization -/

/-- Signed 16-bit values survive the mod-2^16 store/intepret cycle. -/
lemma int16OfUint16_emod (q : Int) (h1 : -32768 ≤ q) (h2 : q ≤ 32767) :
    int16OfUint16 (q % 65536).toNat = q := by
  unfold int16OfUint16
  split_ifs <;> omega

/-- C8: for every UV component `u` with `floor(u * 32767)` in the
signed 16-bit range, the encoder stores exactly the little-endian int16
`floor(u * 32767)` (truncation, not rounding), the decoder reads back
exactly that integer, and the decoded component is exactly
`floor(u * 32767) / 32767`. -/
theorem uv_quantization_policy (u : ℚ) (rest : List Nat)
    (h1 : -32768 ≤ ⌊u * 32767⌋) (h2 : ⌊u * 32767⌋ ≤ 32767) :
    uvEncodeComponent u = int16ToBytesLE ⌊u * 32767⌋ ∧
    readInt16LE (uvEncodeComponent u ++ rest) = some (⌊u * 32767⌋, rest) ∧
    uvRoundTrip u = (⌊u * 32767⌋ : ℚ) / 32767 := by
  have hq : uvQuantize u = ⌊u * 32767⌋ := rfl
  refine ⟨rfl, ?_, ?_⟩
  · rw [uvEncodeComponent, readInt16LE_append, hq, int16OfUint16_emod _ h1 h2]
  · unfold uvRoundTrip
    rw [hq, int16OfUint16_emod _ h1 h2]

/-- Witness for C8 at `u = 1/2` (`floor(16383.5) = 16383`). -/
theorem uv_quantization_policy_witness :
    ((-32768 : Int) ≤ ⌊(1 / 2 : ℚ) * 32767⌋ ∧ ⌊(1 / 2 : ℚ) * 32767⌋ ≤ 32767) ∧
      (uvEncodeComponent (1 / 2) = int16ToBytesLE ⌊(1 / 2 : ℚ) * 32767⌋ ∧
        readInt16LE (uvEncodeComponent (1 / 2) ++ []) = some (⌊(1 / 2 : ℚ) * 32767⌋, []) ∧
        uvRoundTrip (1 / 2) = (⌊(1 / 2 : ℚ) * 32767⌋ : ℚ) / 32767) :=
  ⟨⟨by norm_num, by norm_num⟩,
    uv_quantization_policy (1 / 2) [] (by norm_num) (by norm_num)⟩

/-- C10: a present-but-empty indices array still sets the HAS_INDICES
flag, writes a zero index count (`toU16LE 0`), and decoding the encoded
buffer returns a non-null, zero-length indices array: presence is
determined by the field being supplied, not by it being non-empty. -/
theorem empty_indices_present (g : Geometry) (hwf : WellFormed g) (hgi : g.indices = some []) :
    encodeFlags g &&& HAS_INDICES ≠ 0 ∧
    indicesBytes ([] : List Nat) = toU16LE 0 ∧
    ∃ geo : DecodedGeometry, decode (encode g) = .ok geo ∧ geo.indices = some ([] : List Nat) := by
  refine ⟨?_, rfl, roundTripGeometry g, decode_encode g hwf, ?_⟩
  · rw [encodeFlags_and_indices g, hgi]
    simp
  · simp only [roundTripGeometry, hgi]

/-- Witness for C10 on the empty geometry with `indices = some []`. -/
theorem empty_indices_present_witness :
    (WellFormed ⟨[], some [], none, none, none⟩ ∧
        (⟨[], some [], none, none, none⟩ : Geometry).indices = some []) ∧
      (encodeFlags ⟨[], some [], none, none, none⟩ &&& HAS_INDICES ≠ 0 ∧
        indicesBytes ([] : List Nat) = toU16LE 0 ∧
        ∃ geo : DecodedGeometry,
          decode (encode ⟨[], some [], none, none, none⟩) = .ok geo ∧
            geo.indices = some ([] : List Nat)) := by
  have hwf : WellFormed ⟨[], some [], none, none, none⟩ := by
    refine ⟨rfl, by decide, ?_, ?_, ?_, ?_⟩ <;> intro x hx <;> rw [Option.mem_def] at hx
    · injection hx with hx
      subst hx
      exact ⟨by decide, by decide⟩
    · cases hx
    · cases hx
    · cases hx
  exact ⟨⟨hwf, rfl⟩, empty_indices_present _ hwf rfl⟩

end Rawgd
